import Mathlib

/-!
Shallow embedding of `src/weather_bot.py` (the paper-trading configuration,
`PAPER_MODE = True`, which is the checked-in configuration of the source).

Modelling conventions:
* Python floats are modelled as exact rationals (`ℚ`); `round(x, n)` is
  modelled by `pyRound` (round-half-to-even, as Python's `round`).
* External HTTP data (market listings, leader positions, live quotes,
  Gamma market status) is passed in as explicit arguments, since the
  corresponding Python calls are opaque network requests.
* Timestamps are seconds since an arbitrary epoch (`ℕ`); the trade record
  stores its entry timestamp.  Note that the source's `_check_stale`
  never succeeds in reading it: the stored "%Y-%m-%d %H:%M:%S" string is
  naive, and subtracting its naive `fromisoformat` parse from the aware
  `datetime.now(timezone.utc)` raises `TypeError` on every call, which
  the bare `except` swallows (see `check_stale`).
* Strings are Lean `String`s; Python `str.lower` is modelled by mapping
  `Char.toLower` over the characters, and the `in` substring test by
  `substrB`.
* The append-only CSV trade log and the `save_state` call performed by
  `execute_trade` are modelled by the `logged` and `saved` fields of
  `ExecResult`; the durable file itself is modelled separately by
  `FSState`/`save_state` for the persistence claim.
-/

namespace WeatherBot

/-- Python `round` (banker's rounding, ties to even) on an exact rational. -/
def pyRound (q : ℚ) : ℤ :=
  let f : ℤ := Int.floor q
  let r : ℚ := q - (f : ℚ)
  if r < 1/2 then f
  else if 1/2 < r then f + 1
  else if f % 2 = 0 then f else f + 1

/-- Python `round(q, 2)`. -/
def round2 (q : ℚ) : ℚ := (pyRound (q * 100) : ℚ) / 100

/-- Python `round(q, 3)`. -/
def round3 (q : ℚ) : ℚ := (pyRound (q * 1000) : ℚ) / 1000

/-- Python `round(q, 4)`. -/
def round4 (q : ℚ) : ℚ := (pyRound (q * 10000) : ℚ) / 10000

/-! Configuration constants, from the CONFIG section of the source. -/

def BET_SIZE : ℚ := 5
def MIN_ASK : ℚ := 1/10
def MAX_ASK : ℚ := 95/100
def MAX_SPREAD : ℚ := 1/10
def STARTING_BANKROLL : ℚ := 1000
def KILL_SWITCH_MIN : ℚ := 100
def MAX_PENDING : ℕ := 50

/-- Seconds in the 72-hour staleness window used in `_check_stale`. -/
def STALE_SECONDS : ℤ := 259200

def emptyStr : String := ""
def spaceStr : String := " "
def qmarkStr : String := "?"
def dotsStr : String := "..."

/-- The fixed keyword list `WEATHER_KEYWORDS` from the source. -/
def WEATHER_KEYWORDS : List String :=
  ["temperature", "weather", "degrees", "°f", "°c",
   "fahrenheit", "celsius", "snow", "rainfall", "precipitation",
   "tornado", "flood", "drought", "heat wave", "polar vortex",
   "el nino", "la nina", "noaa", "hottest", "coldest", "warmest",
   "record high", "record low", "winter storm", "blizzard",
   "tropical storm", "hurricane season", "atlantic hurricane",
   "climate", "wildfire", "wind speed", "arctic", "ice extent",
   "sea ice", "record year"]

/-! String helpers modelling Python's `str.lower` and the `in` substring
test, on character lists. -/

/-- Python `str.lower`, character-wise (the keywords and texts involved are
ASCII apart from the degree sign, which `lower` leaves unchanged). -/
def lowerChars (l : List Char) : List Char := l.map Char.toLower

/-- Initial-segment test: `startsWithB n h` is true iff `n` is an initial
segment of `h`. -/
def startsWithB : List Char → List Char → Bool
  | [], _ => true
  | _ :: _, [] => false
  | a :: as, b :: bs => a = b && startsWithB as bs

/-- Python's `needle in hay` substring test on character lists. -/
def substrB : List Char → List Char → Bool
  | n, h =>
    startsWithB n h ||
      match h with
      | [] => false
      | _ :: t => substrB n t

/-- A JSON field that may be absent (`none`) or present but `null`
(`some none`); `market.get("question", "") or ""` maps both to `""`. -/
def getStr (x : Option (Option String)) : String :=
  (x.getD none).getD emptyStr

/-- The input record of `is_weather_market`: a Gamma market object, of
which only the `question` and `description` fields are read. -/
structure MarketRec where
  question : Option (Option String)
  description : Option (Option String)

/-- The lower-cased `question + " " + description` text built inside
`is_weather_market`. -/
def marketText (m : MarketRec) : List Char :=
  lowerChars (getStr m.question).data ++ spaceStr.data ++
    lowerChars (getStr m.description).data

/-- The classifier `is_weather_market` from the source: true iff some weather keyword is
a substring of the lower-cased question-plus-space-plus-description. -/
def is_weather_market (m : MarketRec) : Bool :=
  WEATHER_KEYWORDS.any (fun kw => substrB kw.data (marketText m))

/-! Leader consensus (the vote aggregation inside `run`, lines 791-811). -/

/-- One leader position row returned by `get_leader_positions`. -/
structure Position where
  address : String
  outcome : String
  size : ℚ
  pnl : ℚ
deriving DecidableEq

/-- One aggregate of `outcome_votes` (count, total_size, best_leader). -/
structure Vote where
  count : ℕ
  total_size : ℚ
  best_leader : Option Position
deriving DecidableEq

/-- The `best_leader` update: replace only on strictly larger `size`
(`p.get("size", 0) > best_leader.get("size", 0)` in the source). -/
def updBest (b : Option Position) (p : Position) : Option Position :=
  match b with
  | none => some p
  | some q => if q.size < p.size then some p else some q

/-- The effect of folding one position into the aggregate of its own
outcome key (used to characterise `addPosition` via `lookupV`). -/
def addOne (b : Option Vote) (p : Position) : Option Vote :=
  match b with
  | none => some ⟨1, p.size, some p⟩
  | some v => some ⟨v.count + 1, v.total_size + p.size, updBest v.best_leader p⟩

/-- Insert one position into the `outcome_votes` association list; a new
outcome key is appended at the end (Python dict insertion order). -/
def addPosition (votes : List (String × Vote)) (p : Position) :
    List (String × Vote) :=
  match votes with
  | [] => [(p.outcome, ⟨1, p.size, some p⟩)]
  | (o, v) :: rest =>
    if o = p.outcome then
      (o, ⟨v.count + 1, v.total_size + p.size, updBest v.best_leader p⟩) :: rest
    else
      (o, v) :: addPosition rest p

/-- The full `outcome_votes` dict built from the positions list. -/
def buildVotes (ps : List Position) : List (String × Vote) :=
  ps.foldl addPosition []

/-- Association-list lookup (Python dict access by key). -/
def lookupV : List (String × Vote) → String → Option Vote
  | [], _ => none
  | (o, v) :: rest, k => if o = k then some v else lookupV rest k

/-- One comparison step of Python's `max(..., key=...)`: the running
maximum is replaced only when the new key is strictly larger. -/
def voteStep (acc y : String × Vote) : String × Vote :=
  if acc.2.total_size < y.2.total_size then y else acc

/-- Python `max(items, key=lambda x: x[1]["total_size"])`: keeps the first
maximum under iteration order (replaces only on strictly larger key). -/
def pickBest : List (String × Vote) → Option (String × Vote)
  | [] => none
  | x :: rest => some (rest.foldl voteStep x)

/-- The consensus step of `run`: build `outcome_votes` from the leader
positions and pick the outcome with the greatest `total_size`. -/
def consensus (ps : List Position) : Option (String × Vote) :=
  pickBest (buildVotes ps)

/-! Ledger state and trade records. -/

/-- A Trade record, with the fields of the trade dict that the state
machine reads (pure logging fields such as `order_id`, `paper`,
`potential_profit`, `leader_pnl` are omitted; `PAPER_MODE` is fixed). -/
structure Trade where
  timestamp : ℕ
  question : String
  outcome : String
  leader_address : String
  clob_ask : ℚ
  clob_bid : ℚ
  spread : ℚ
  bet_size : ℚ
  shares : ℕ
  token_id : String
  condition_id : String
  resolved : Bool
  won : Option Bool
  pnl : Option ℚ
  bankroll_after : Option ℚ
deriving DecidableEq

/-- The persisted Ledger state (the `state` dict; the constant `version`
field and the display-only `last_market_found` string are omitted). -/
structure BotState where
  bankroll : ℚ
  pnl : ℚ
  wins : ℕ
  losses : ℕ
  trades : ℕ
  pending : List Trade
  traded_tokens : List String
  markets_seen : ℕ
deriving DecidableEq

/-- The default fresh Ledger returned by `load_state` when no (valid,
version-2) state file exists. -/
def fresh_state : BotState :=
  { bankroll := STARTING_BANKROLL, pnl := 0, wins := 0, losses := 0,
    trades := 0, pending := [], traded_tokens := [], markets_seen := 0 }

/-- A scanned market together with the external data the bot fetches for
it: the leader positions returned by `get_leader_positions`, and the live
`ask`/`bid` that `get_clob_prices` returns for the traded token. -/
structure MarketData where
  tokens : List String
  outcomes : List String
  condition_id : String
  question : String
  positions : List Position
  ask : ℚ
  bid : ℚ
deriving DecidableEq

/-- The result of `execute_trade`: the returned boolean, the state after
the call, the row appended to the CSV log (if any), and whether
`save_state` was invoked. -/
structure ExecResult where
  success : Bool
  state : BotState
  logged : Option Trade
  saved : Bool
deriving DecidableEq

/-- The trade executor `execute_trade` (paper mode): precondition guards, share sizing, and
on success the Ledger mutation (append pending, bump trade counter, debit
bankroll, record token) followed by persist and log.  After the explicit
`outcome_idx >= len(tokens)` guard the index is in range, so the
`tokens[outcome_idx]` access is modelled with `getD`. -/
def execute_trade (s : BotState) (m : MarketData) (outcome_idx : ℕ)
    (leader_addr : String) (now : ℕ) : ExecResult :=
  if m.tokens.length ≤ outcome_idx then ⟨false, s, none, false⟩
  else
    let token_id := m.tokens.getD outcome_idx emptyStr
    let outcome := m.outcomes.getD outcome_idx qmarkStr
    let ask := m.ask
    let bid := m.bid
    if ask ≤ 0 ∨ 1 ≤ ask then ⟨false, s, none, false⟩
    else if ask < MIN_ASK ∨ MAX_ASK < ask then ⟨false, s, none, false⟩
    else if MAX_SPREAD < ask - bid then ⟨false, s, none, false⟩
    else
      let shares : ℕ := (Int.floor (BET_SIZE / ask)).toNat
      if shares < 1 then ⟨false, s, none, false⟩
      else
        let actual_cost := round2 ((shares : ℚ) * ask)
        let trade : Trade :=
          { timestamp := now,
            question := m.question.take 100,
            outcome := outcome,
            leader_address := leader_addr.take 16 ++ dotsStr,
            clob_ask := ask,
            clob_bid := bid,
            spread := round3 (ask - bid),
            bet_size := actual_cost,
            shares := shares,
            token_id := token_id,
            condition_id := m.condition_id,
            resolved := false,
            won := none,
            pnl := none,
            bankroll_after := none }
        let s' : BotState :=
          { s with
            pending := s.pending ++ [trade],
            trades := s.trades + 1,
            bankroll := s.bankroll - actual_cost,
            traded_tokens := s.traded_tokens ++ [token_id] }
        ⟨true, s', some trade, true⟩

/-! Resolution engine (paper branch of `resolve_trades`). -/

/-- The Gamma market object consulted by `resolve_paper_trade` (fields
`closed`, `resolved`, `outcomePrices`, `clobTokenIds`). -/
structure GammaInfo where
  closed : Bool
  resolved : Bool
  outcomePrices : List ℚ
  clobTokenIds : List String
deriving DecidableEq

/-- The enumerate-scan of `clobTokenIds` against `outcomePrices`: the
first token equal to `tid` whose index is also within the prices array
yields its settled price; a match beyond the prices array is skipped. -/
def findFinalPrice (tid : String) : List String → List ℚ → Option ℚ
  | [], _ => none
  | _ :: rest, [] => findFinalPrice tid rest []
  | tok :: rest, p :: ps =>
    if tok = tid then some p else findFinalPrice tid rest ps

/-- The Gamma-status half of `resolve_paper_trade`: when the market is
reported closed or resolved and the trade's token is found, a settled
price above 0.5 is a win; any failure to conclude yields `none`
(including request failure, modelled by the `Option` on `GammaInfo`). -/
def gammaCheck (tid : String) : Option GammaInfo → Option Bool
  | none => none
  | some g =>
    if g.closed || g.resolved then
      match findFinalPrice tid g.clobTokenIds g.outcomePrices with
      | some p => some (decide ((1:ℚ)/2 < p))
      | none => none
    else none

/-- The live-quote fallback of `resolve_paper_trade`: win when the ask
or the bid is at least 0.99, loss when both are at most 0.01, otherwise
unresolved.  (An unreachable `get_clob_prices` exception would leave both
quotes at their `0.0` defaults, covered by the loss branch.) -/
def priceFallback (ask bid : ℚ) : Option Bool :=
  if 99/100 ≤ ask ∨ 99/100 ≤ bid then some true
  else if ask ≤ 1/100 ∧ bid ≤ 1/100 then some false
  else none

/-- The per-trade check `resolve_paper_trade`: Gamma market status first, live quotes as the
fallback; `none` means the trade stays unresolved this cycle. -/
def resolve_paper_trade (t : Trade) (g : Option GammaInfo) (ask bid : ℚ) :
    Option Bool :=
  match gammaCheck t.token_id g with
  | some w => some w
  | none => priceFallback ask bid

/-- The external data consulted while resolving one pending trade: the
Gamma market lookup and the live quotes for the trade's token. -/
structure ResData where
  gamma : Option GammaInfo
  ask : ℚ
  bid : ℚ

/-- The source's `_record_resolution`: credit the bankroll with `shares * 1.0` on a
win, bump the win/loss counter, add the realized pnl, and mark the trade
record (which the caller drops from `pending` and appends to the log). -/
def record_resolution (t : Trade) (s : BotState) (won : Bool) :
    Trade × BotState :=
  if won then
    let payout : ℚ := (t.shares : ℚ) * 1
    let pnl := payout - t.bet_size
    let s1 : BotState :=
      { s with bankroll := s.bankroll + payout, wins := s.wins + 1 }
    let s2 : BotState := { s1 with pnl := s1.pnl + pnl }
    let t2 : Trade :=
      { t with resolved := true, won := some true,
               pnl := some (round4 pnl),
               bankroll_after := some (round2 s2.bankroll) }
    (t2, s2)
  else
    let pnl := -t.bet_size
    let s1 : BotState := { s with losses := s.losses + 1 }
    let s2 : BotState := { s1 with pnl := s1.pnl + pnl }
    let t2 : Trade :=
      { t with resolved := true, won := some false,
               pnl := some (round4 pnl),
               bankroll_after := some (round2 s2.bankroll) }
    (t2, s2)

/-- The source's `_check_stale` is a no-op for every trade this program
creates.  `execute_trade` stores the entry timestamp as a naive
"%Y-%m-%d %H:%M:%S" string (no timezone marker), `fromisoformat` parses
it back naive, and subtracting it from the aware
`datetime.now(timezone.utc)` raises
`TypeError: can't subtract offset-naive and offset-aware datetimes`
before the 72-hour age test can run; the bare `except Exception: pass`
swallows the error and the function returns False.  The staleness
force-loss body (lines 581-591) is therefore dead code, so the model
returns the except-path result unconditionally. -/
def check_stale (t : Trade) (s : BotState) (_now : ℕ) :
    Bool × Trade × BotState :=
  (false, t, s)

/-- The body of the paper branch of `resolve_trades`: walk the pending
list; a trade resolved by `resolve_paper_trade` is recorded, otherwise
`_check_stale` is consulted (it never fires — see `check_stale`) and the
trade is kept in `still_pending` (returned as the first component). -/
def resolveLoop (env : Trade → ResData) (now : ℕ) :
    List Trade → BotState → List Trade × BotState
  | [], s => ([], s)
  | t :: rest, s =>
    match resolve_paper_trade t (env t).gamma (env t).ask (env t).bid with
    | some w => resolveLoop env now rest (record_resolution t s w).2
    | none =>
      let c := check_stale t s now
      if c.1 then resolveLoop env now rest c.2.2
      else
        let r := resolveLoop env now rest s
        (t :: r.1, r.2)

/-- The resolution pass `resolve_trades` (paper mode): no-op on an empty pending list,
otherwise run the loop and install the new `still_pending` list. -/
def resolve_trades (s : BotState) (env : Trade → ResData) (now : ℕ) :
    BotState :=
  if s.pending.isEmpty then s
  else
    let r := resolveLoop env now s.pending s
    { r.2 with pending := r.1 }

/-! Atomic persistence (`save_state`, lines 131-145). -/

/-- Contents of the temporary file during a save: freshly created, partly
written (a failed `json.dump`), or holding the complete document. -/
inductive TmpDoc where
  | fresh : TmpDoc
  | truncated : TmpDoc
  | full : BotState → TmpDoc
deriving DecidableEq

/-- The observable file system: the canonical state path (holding a
complete, loadable document when present — `os.replace` is atomic, so no
partial write is ever visible there) and the temporary file. -/
structure FSState where
  canonical : Option BotState
  tmpFile : Option TmpDoc
deriving DecidableEq

/-- Failure injection for one `save_state` call: everything succeeds, the
`json.dump` write fails midway, or the `os.replace` rename fails. -/
inductive SaveFail where
  | ok : SaveFail
  | duringDump : SaveFail
  | duringReplace : SaveFail
deriving DecidableEq

/-- The persistence routine `save_state`: `tempfile.mkstemp` in the state file's directory, write
the document, atomically rename over the canonical path; on an exception
the temporary file is unlinked and the exception re-raised.  Returns the
final file system, `true` iff the call returned normally, and the trace
of intermediate file-system states (for the mid-write crash property). -/
def save_state (fs : FSState) (d : BotState) (f : SaveFail) :
    FSState × Bool × List FSState :=
  let fs1 : FSState := { canonical := fs.canonical, tmpFile := some TmpDoc.fresh }
  match f with
  | SaveFail.ok =>
    let fs2 : FSState :=
      { canonical := fs.canonical, tmpFile := some (TmpDoc.full d) }
    let fs3 : FSState := { canonical := some d, tmpFile := none }
    (fs3, true, [fs1, fs2, fs3])
  | SaveFail.duringDump =>
    let fs2 : FSState :=
      { canonical := fs.canonical, tmpFile := some TmpDoc.truncated }
    let fs3 : FSState := { canonical := fs.canonical, tmpFile := none }
    (fs3, false, [fs1, fs2, fs3])
  | SaveFail.duringReplace =>
    let fs2 : FSState :=
      { canonical := fs.canonical, tmpFile := some (TmpDoc.full d) }
    let fs3 : FSState := { canonical := fs.canonical, tmpFile := none }
    (fs3, false, [fs1, fs2, fs3])

/-! The market-processing loop of one scan iteration (`run`, lines
741-838). -/

/-- First index of `name` in the outcomes list (the outcome/token
matching loop at lines 818-823). -/
def findIdxS (name : String) : List String → ℕ → Option ℕ
  | [], _ => none
  | o :: rest, i => if o = name then some i else findIdxS name rest (i + 1)

/-- The per-iteration market loop.  `traded_set` is the snapshot
`set(state["traded_tokens"])` taken once before the loop; it is NOT
refreshed when a trade succeeds.  The second result component records, for
each `execute_trade` invocation, the targeted token and whether that token
was already in `state["traded_tokens"]` at the moment of the call.  An
out-of-range outcome index at the `tokens[outcome_idx]` access would raise
and abort the iteration (outer exception handler), modelled by stopping. -/
def marketLoop (traded_set : List String) (now : ℕ) :
    List MarketData → BotState → BotState × List (String × Bool)
  | [], s => (s, [])
  | m :: rest, s =>
    if s.bankroll < BET_SIZE then (s, [])
    else if MAX_PENDING ≤ s.pending.length then (s, [])
    else if m.tokens.all (fun tk => tk ∈ traded_set) then
      marketLoop traded_set now rest s
    else if m.positions.isEmpty then marketLoop traded_set now rest s
    else
      match consensus m.positions with
      | none => marketLoop traded_set now rest s
      | some (oname, v) =>
        match findIdxS oname m.outcomes 0 with
        | none => marketLoop traded_set now rest s
        | some idx =>
          if m.tokens.length ≤ idx then (s, [])
          else
            let tok := m.tokens.getD idx emptyStr
            if tok ∈ traded_set then marketLoop traded_set now rest s
            else
              let la := match v.best_leader with
                | some p => p.address
                | none => emptyStr
              let inv : String × Bool := (tok, decide (tok ∈ s.traded_tokens))
              let r := execute_trade s m idx la now
              let next := marketLoop traded_set now rest r.state
              (next.1, inv :: next.2)

/-- The trading phase of one scan iteration: snapshot `traded_tokens`
into `traded_set`, then run the market loop. -/
def scanIteration (s : BotState) (markets : List MarketData) (now : ℕ) :
    BotState × List (String × Bool) :=
  marketLoop s.traded_tokens now markets s

/-! Reachable Ledger states: the default fresh Ledger, closed under the
two Ledger-mutating operations of the paper-mode state machine. -/

/-- Sum of `bet_size` over a pending list. -/
def sumBet (l : List Trade) : ℚ := (l.map Trade.bet_size).sum

/-- The conservation equation of the spec:
`bankroll + sum(pending bet_size) - realized_pnl = starting_bankroll`. -/
def ledger_inv (s : BotState) : Prop :=
  s.bankroll + sumBet s.pending - s.pnl = STARTING_BANKROLL

/-- The trade-accounting partition: every counted trade is won, lost or
still pending. -/
def trade_partition (s : BotState) : Prop :=
  s.trades = s.wins + s.losses + s.pending.length

/-- Ledger states reachable from the default fresh Ledger by the
Ledger-mutating operations (`execute_trade`, successful or not, and full
`resolve_trades` passes, which include win/loss resolution and the
source's staleness check — inert, see `check_stale`). -/
inductive Reach : BotState → Prop where
  | init : Reach fresh_state
  | exec (s : BotState) (m : MarketData) (idx : ℕ) (la : String) (now : ℕ) :
      Reach s → Reach (execute_trade s m idx la now).state
  | resolve (s : BotState) (env : Trade → ResData) (now : ℕ) :
      Reach s → Reach (resolve_trades s env now)

/-! Concrete instances used by witnesses and counterexamples. -/

def tokA : String := "token-a"
def tokB : String := "token-b"
def yesStr : String := "Yes"
def noStr : String := "No"
def addrA : String := "0xaaa"
def addrB : String := "0xbbb"
def addrC : String := "0xccc"
def addrD : String := "0xddd"
def addrE : String := "0xeee"
def cidStr : String := "cond-1"
def qStr : String := "Will it rain tomorrow"

/-- A market quoted above `MAX_ASK` (ask 0.97). -/
def mAsk97 : MarketData :=
  { tokens := [tokA, tokB], outcomes := [yesStr, noStr],
    condition_id := cidStr, question := qStr, positions := [],
    ask := 97/100, bid := 9/10 }

/-- A market quoted at ask 0.40 / bid 0.35 (the worked example of the
spec: shares 12, bet 4.80). -/
def mAsk40 : MarketData :=
  { tokens := [tokA, tokB], outcomes := [yesStr, noStr],
    condition_id := cidStr, question := qStr,
    positions := [{ address := addrA, outcome := yesStr, size := 100, pnl := 0 }],
    ask := 2/5, bid := 7/20 }

/-- The trade record `execute_trade` builds for `mAsk40` at index 0 with
leader address `addrA` at time 0 (verbatim field expressions). -/
def tEx : Trade :=
  { timestamp := 0,
    question := qStr.take 100,
    outcome := yesStr,
    leader_address := addrA.take 16 ++ dotsStr,
    clob_ask := 2/5,
    clob_bid := 7/20,
    spread := round3 (2/5 - 7/20),
    bet_size := round2 (((Int.floor (BET_SIZE / (2/5 : ℚ))).toNat : ℚ) * (2/5)),
    shares := (Int.floor (BET_SIZE / (2/5 : ℚ))).toNat,
    token_id := tokA,
    condition_id := cidStr,
    resolved := false, won := none, pnl := none, bankroll_after := none }

/-- A pending trade entered at time 0 (10 shares at ask 0.50, bet 5.00). -/
def tradeStale : Trade :=
  { timestamp := 0, question := qStr, outcome := yesStr,
    leader_address := addrA, clob_ask := 1/2, clob_bid := 9/20,
    spread := 1/20, bet_size := 5, shares := 10, token_id := tokA,
    condition_id := cidStr, resolved := false, won := none, pnl := none,
    bankroll_after := none }

/-- A Ledger holding exactly the one pending trade `tradeStale`. -/
def stStale : BotState :=
  { bankroll := 995, pnl := 0, wins := 0, losses := 0, trades := 1,
    pending := [tradeStale], traded_tokens := [tokA], markets_seen := 1 }

/-- Resolution environment: Gamma lookup fails and the live quotes are
mid-range (0.50/0.45), so nothing resolves by price. -/
def envMid : Trade → ResData :=
  fun _ => { gamma := none, ask := 1/2, bid := 9/20 }

def heatStr : String := "heat"
def waveStr : String := "wave"
def heatWaveKw : String := "heat wave"
def blizzardQ : String := "Blizzard to hit NYC this weekend?"
def recordHighD : String := "Resolves YES if the city sets a record high."
def unrelatedQ : String := "Who will win the chess match tonight?"
def unrelatedD : String := "Resolves to the name of the winner."

/-- A market whose question contains "Blizzard". -/
def mBlizzard : MarketRec :=
  { question := some (some blizzardQ), description := some (some emptyStr) }

/-- A market with a missing question field whose description contains
"record high". -/
def mRecordHigh : MarketRec :=
  { question := none, description := some (some recordHighD) }

/-- A market about an unrelated topic, with a null description. -/
def mUnrelated : MarketRec :=
  { question := some (some unrelatedQ), description := some (some unrelatedD) }

/-- Question "heat", description "wave": the keyword "heat wave" matches
only across the space the code inserts between the two fields. -/
def mHeatWave : MarketRec :=
  { question := some (some heatStr), description := some (some waveStr) }

/-- The consensus scenario of the spec: "Yes" with total size 800 over
three traders against "No" with total size 950 over two traders. -/
def exC6 : List Position :=
  [{ address := addrA, outcome := yesStr, size := 300, pnl := 0 },
   { address := addrB, outcome := noStr, size := 500, pnl := 0 },
   { address := addrC, outcome := yesStr, size := 250, pnl := 0 },
   { address := addrD, outcome := noStr, size := 450, pnl := 0 },
   { address := addrE, outcome := yesStr, size := 250, pnl := 0 }]

end WeatherBot

namespace WeatherBot

/-! ### Helper lemmas -/

/-- On a rejected precondition `execute_trade` is exactly the no-op
result (helper shared by several claims). -/
theorem execute_trade_reject (s : BotState) (m : MarketData) (idx : ℕ)
    (la : String) (now : ℕ)
    (h : m.tokens.length ≤ idx ∨ m.ask ≤ 0 ∨ 1 ≤ m.ask ∨ m.ask < MIN_ASK ∨
      MAX_ASK < m.ask ∨ MAX_SPREAD < m.ask - m.bid ∨
      (Int.floor (BET_SIZE / m.ask)).toNat < 1) :
    execute_trade s m idx la now = ⟨false, s, none, false⟩ := by
  simp only [execute_trade]
  split_ifs with h1 h2 h3 h4 h5
  · rfl
  · rfl
  · rfl
  · rfl
  · rfl
  · exfalso
    rcases h with h | h | h | h | h | h | h
    · exact h1 h
    · exact h2 (Or.inl h)
    · exact h2 (Or.inr h)
    · exact h3 (Or.inl h)
    · exact h3 (Or.inr h)
    · exact h4 h
    · exact h5 h

/-! ### Claim theorems -/

/-- Claim C4: whenever `execute_trade` rejects on any precondition
(outcome index out of range, ask not strictly inside (0,1), ask outside
the acceptance band, spread above `MAX_SPREAD`, or share count below 1),
it returns false and leaves the Ledger completely unmutated: no pending
append, no bankroll change, no traded-tokens addition, no `save_state`
call and no log append. -/
theorem c4_reject_no_mutation (s : BotState) (m : MarketData) (idx : ℕ)
    (la : String) (now : ℕ)
    (h : m.tokens.length ≤ idx ∨ m.ask ≤ 0 ∨ 1 ≤ m.ask ∨ m.ask < MIN_ASK ∨
      MAX_ASK < m.ask ∨ MAX_SPREAD < m.ask - m.bid ∨
      (Int.floor (BET_SIZE / m.ask)).toNat < 1) :
    (execute_trade s m idx la now).success = false ∧
    (execute_trade s m idx la now).state = s ∧
    (execute_trade s m idx la now).logged = none ∧
    (execute_trade s m idx la now).saved = false := by
  rw [execute_trade_reject s m idx la now h]
  exact ⟨rfl, rfl, rfl, rfl⟩

/-- Witness for C4: ask = 0.97 (above `MAX_ASK` = 0.95) yields false and
an unchanged Ledger. -/
theorem c4_witness :
    (execute_trade fresh_state mAsk97 0 emptyStr 0).success = false ∧
    (execute_trade fresh_state mAsk97 0 emptyStr 0).state = fresh_state ∧
    (execute_trade fresh_state mAsk97 0 emptyStr 0).logged = none ∧
    (execute_trade fresh_state mAsk97 0 emptyStr 0).saved = false :=
  c4_reject_no_mutation fresh_state mAsk97 0 emptyStr 0
    (Or.inr (Or.inr (Or.inr (Or.inr (Or.inl (by norm_num [MAX_ASK, mAsk97]))))))

/-- Claim C7: `save_state` is all-or-nothing.  On a normal return the
canonical path holds exactly the new document; on any write failure the
canonical path still holds the previous document and the temporary file
has been removed; and at every intermediate point of the procedure the
canonical path holds a complete document (old or new), never a partial
write — `os.replace` being the only operation that touches it. -/
theorem c7_save_state_atomic (fs : FSState) (d : BotState) (f : SaveFail) :
    ((save_state fs d f).2.1 = true → (save_state fs d f).1.canonical = some d) ∧
    ((save_state fs d f).2.1 = false →
      (save_state fs d f).1.canonical = fs.canonical) ∧
    (save_state fs d f).1.tmpFile = none ∧
    (∀ mid ∈ (save_state fs d f).2.2,
      mid.canonical = fs.canonical ∨ mid.canonical = some d) := by
  cases f <;> simp [save_state]

/-- Witness for C7: a failing dump over a durable fresh-state file leaves
that file untouched and removes the temporary file. -/
theorem c7_witness :
    ((save_state ⟨some fresh_state, none⟩ stStale SaveFail.duringDump).2.1 = false →
      (save_state ⟨some fresh_state, none⟩ stStale SaveFail.duringDump).1.canonical =
        some fresh_state) ∧
    (save_state ⟨some fresh_state, none⟩ stStale SaveFail.duringDump).1.tmpFile = none := by
  have h := c7_save_state_atomic ⟨some fresh_state, none⟩ stStale SaveFail.duringDump
  exact ⟨h.2.1, h.2.2.1⟩

/-- Claim C2 (code bug): the claim — like the source's own docstring
"Mark positions older than 72h as losses. Returns True if stale." and
its "[STALE] Marking as loss (>72h)" status line — says a pending trade
older than 72 hours is force-resolved as a loss on the next resolution
pass.  In the program the staleness path is dead code (see
`check_stale`): the naive stored timestamp cannot be subtracted from the
aware current time, the `TypeError` is swallowed, and `_check_stale`
returns False on every call, so no trade is ever force-resolved as
stale.  Evaluated at the failing input: a trade 300000 seconds old (well
past the 259200-second window) that the market-status and live-price
checks cannot resolve survives the resolution pass in `pending`, with no
loss (and no win) recorded. -/
theorem c2_stale_check_dead_code :
    (∀ (t : Trade) (s : BotState) (now : ℕ),
      check_stale t s now = (false, t, s)) ∧
    STALE_SECONDS < (300000 : ℤ) - (tradeStale.timestamp : ℤ) ∧
    resolve_paper_trade tradeStale none (1/2) (9/20) = none ∧
    (resolve_trades stStale envMid 300000).pending = [tradeStale] ∧
    (resolve_trades stStale envMid 300000).losses = 0 ∧
    (resolve_trades stStale envMid 300000).wins = 0 := by
  refine ⟨fun t s now => rfl, by norm_num [STALE_SECONDS, tradeStale],
    ?_, ?_, ?_, ?_⟩ <;>
    norm_num [resolve_trades, resolveLoop, resolve_paper_trade, gammaCheck,
      priceFallback, check_stale, stStale, envMid, tradeStale]

/-- Counterexample to claim C3 as stated: with the Gamma lookup failed
and live quotes ask = 1, bid = 0.5, the fallback reports a WIN although
the bid is nowhere near 0.99 — the win condition in the code is
`ask ≥ 0.99 OR bid ≥ 0.99`, not AND. -/
theorem c3_counterexample :
    resolve_paper_trade tradeStale none 1 (1/2) = some true ∧
    ¬ ((99:ℚ)/100 ≤ 1/2) := by
  constructor
  · simp only [resolve_paper_trade, gammaCheck, priceFallback]
    rw [if_pos (by norm_num)]
  · norm_num

/-- Claim C3 (amended): in the live-price fallback (reached exactly when
the market-status check yields no verdict), a pending trade is treated as
a win when the live ask OR the live bid is ≥ 0.99, as a loss only when
both the ask and the bid are ≤ 0.01, and otherwise remains unresolved for
that cycle. -/
theorem c3_fallback_characterization (t : Trade) (g : Option GammaInfo)
    (a b : ℚ) (hg : gammaCheck t.token_id g = none) :
    (resolve_paper_trade t g a b = some true ↔ 99/100 ≤ a ∨ 99/100 ≤ b) ∧
    (resolve_paper_trade t g a b = some false ↔
      ¬(99/100 ≤ a ∨ 99/100 ≤ b) ∧ a ≤ 1/100 ∧ b ≤ 1/100) ∧
    (resolve_paper_trade t g a b = none ↔
      ¬(99/100 ≤ a ∨ 99/100 ≤ b) ∧ ¬(a ≤ 1/100 ∧ b ≤ 1/100)) := by
  simp only [resolve_paper_trade, hg, priceFallback]
  by_cases h1 : (99:ℚ)/100 ≤ a ∨ 99/100 ≤ b
  · rw [if_pos h1]
    simp [h1]
  · rw [if_neg h1]
    by_cases h2 : a ≤ 1/100 ∧ b ≤ 1/100
    · rw [if_pos h2]
      simp [h1, h2]
      exact ⟨by linarith [h2.1], by linarith [h2.2]⟩
    · rw [if_neg h2]
      simp [h1, h2]
      intro ha
      by_contra hb
      exact h2 ⟨by linarith, by linarith⟩

/-- Witness for C3 (amended): mid-range quotes (0.50/0.45) leave the
trade unresolved. -/
theorem c3_witness :
    resolve_paper_trade tradeStale none (1/2) (9/20) = none := by
  have h := c3_fallback_characterization tradeStale none (1/2) (9/20) rfl
  exact h.2.2.mpr (by norm_num)

theorem sumBet_nil : sumBet [] = 0 := rfl

theorem sumBet_cons (t : Trade) (l : List Trade) :
    sumBet (t :: l) = t.bet_size + sumBet l := by
  simp [sumBet]

theorem sumBet_append (l₁ l₂ : List Trade) :
    sumBet (l₁ ++ l₂) = sumBet l₁ + sumBet l₂ := by
  simp [sumBet]

/-- The executor preserves the conservation equation: the bankroll
debit equals the `bet_size` of the newly appended pending trade. -/
theorem ledger_inv_execute (s : BotState) (m : MarketData) (idx : ℕ)
    (la : String) (now : ℕ) (h : ledger_inv s) :
    ledger_inv (execute_trade s m idx la now).state := by
  simp only [execute_trade]
  split_ifs with h1 h2 h3 h4 h5
  · exact h
  · exact h
  · exact h
  · exact h
  · exact h
  · simp only [ledger_inv] at h ⊢
    rw [sumBet_append, sumBet_cons, sumBet_nil]
    simp only []
    linarith [h]

/-- The resolution loop preserves
`bankroll + sum(still-pending bet_size) - pnl`. -/
theorem resolveLoop_led (env : Trade → ResData) (now : ℕ) :
    ∀ (l : List Trade) (s : BotState),
      (resolveLoop env now l s).2.bankroll + sumBet (resolveLoop env now l s).1
          - (resolveLoop env now l s).2.pnl
        = s.bankroll + sumBet l - s.pnl := by
  intro l
  induction l with
  | nil =>
    intro s
    simp [resolveLoop]
  | cons t rest ih =>
    intro s
    simp only [resolveLoop]
    split
    · rename_i w _
      rw [ih]
      cases w <;>
        simp [record_resolution, sumBet_cons] <;> ring
    · simp only [check_stale, Bool.false_eq_true, if_false]
      rw [sumBet_cons, sumBet_cons]
      linarith [ih s]

/-- A `resolve_trades` pass preserves the conservation equation. -/
theorem ledger_inv_resolve (s : BotState) (env : Trade → ResData) (now : ℕ)
    (h : ledger_inv s) : ledger_inv (resolve_trades s env now) := by
  simp only [resolve_trades]
  split_ifs with hp
  · exact h
  · simp only [ledger_inv] at h ⊢
    show (resolveLoop env now s.pending s).2.bankroll
        + sumBet (resolveLoop env now s.pending s).1
        - (resolveLoop env now s.pending s).2.pnl = STARTING_BANKROLL
    rw [resolveLoop_led env now s.pending s]
    exact h

/-- Claim C1: at every reachable (hence every persisted) Ledger snapshot
`bankroll + sum(pending bet_size) - realized_pnl = starting_bankroll`
(exactly, in rational arithmetic); every Ledger-mutating operation —
`execute_trade`, and `resolve_trades` passes covering win/loss
resolution and staleness expiry — preserves the equation. -/
theorem c1_ledger_conservation (s : BotState) (hs : Reach s) :
    ledger_inv s := by
  induction hs with
  | init =>
    simp [ledger_inv, fresh_state, sumBet, STARTING_BANKROLL]
  | exec s m idx la now _ ih => exact ledger_inv_execute s m idx la now ih
  | resolve s env now _ ih => exact ledger_inv_resolve s env now ih

/-- Witness for C1: the state reached by one successful trade (ask 0.40)
satisfies the conservation equation. -/
theorem c1_witness :
    ledger_inv (execute_trade fresh_state mAsk40 0 addrA 0).state :=
  c1_ledger_conservation (execute_trade fresh_state mAsk40 0 addrA 0).state
    (Reach.exec fresh_state mAsk40 0 addrA 0 Reach.init)

/-- The executor preserves the trade-accounting partition. -/
theorem trade_partition_execute (s : BotState) (m : MarketData) (idx : ℕ)
    (la : String) (now : ℕ) (h : trade_partition s) :
    trade_partition (execute_trade s m idx la now).state := by
  simp only [execute_trade]
  split_ifs with h1 h2 h3 h4 h5
  · exact h
  · exact h
  · exact h
  · exact h
  · exact h
  · simp only [trade_partition] at h ⊢
    simp only [List.length_append, List.length_cons, List.length_nil]
    omega

/-- The resolution loop moves each processed pending trade either to
exactly one terminal counter or back to the still-pending list. -/
theorem resolveLoop_partition (env : Trade → ResData) (now : ℕ) :
    ∀ (l : List Trade) (s : BotState),
      (resolveLoop env now l s).2.trades = s.trades ∧
      (resolveLoop env now l s).2.wins + (resolveLoop env now l s).2.losses
          + (resolveLoop env now l s).1.length
        = s.wins + s.losses + l.length := by
  intro l
  induction l with
  | nil =>
    intro s
    simp [resolveLoop]
  | cons t rest ih =>
    intro s
    simp only [resolveLoop]
    split
    · rename_i w _
      rcases ih ((record_resolution t s w).2) with ⟨htr, hc⟩
      rw [htr, hc]
      cases w <;> simp [record_resolution] <;> omega
    · simp only [check_stale, Bool.false_eq_true, if_false, List.length_cons]
      rcases ih s with ⟨htr, hc⟩
      rw [htr]
      refine ⟨rfl, ?_⟩
      omega

/-- A `resolve_trades` pass preserves the trade-accounting partition. -/
theorem trade_partition_resolve (s : BotState) (env : Trade → ResData)
    (now : ℕ) (h : trade_partition s) :
    trade_partition (resolve_trades s env now) := by
  simp only [resolve_trades]
  split_ifs with hp
  · exact h
  · simp only [trade_partition] at h ⊢
    rcases resolveLoop_partition env now s.pending s with ⟨htr, hc⟩
    show (resolveLoop env now s.pending s).2.trades
        = (resolveLoop env now s.pending s).2.wins
          + (resolveLoop env now s.pending s).2.losses
          + (resolveLoop env now s.pending s).1.length
    omega

/-- Claim C10: starting from the default fresh Ledger, after every
completed operation (an `execute_trade` call or a full `resolve_trades`
pass) the trade counter equals wins + losses + number of pending trades:
every counted trade is in exactly one of the won, lost or pending states,
and resolution or staleness expiry moves a pending trade into exactly one
terminal counter. -/
theorem c10_trade_partition (s : BotState) (hs : Reach s) :
    trade_partition s := by
  induction hs with
  | init => simp [trade_partition, fresh_state]
  | exec s m idx la now _ ih => exact trade_partition_execute s m idx la now ih
  | resolve s env now _ ih => exact trade_partition_resolve s env now ih

/-- Witness for C10: the partition holds in the state reached by one
successful trade followed by a resolution pass with mid-range quotes. -/
theorem c10_witness :
    trade_partition
      (resolve_trades (execute_trade fresh_state mAsk40 0 addrA 0).state
        envMid 0) :=
  c10_trade_partition _
    (Reach.resolve _ envMid 0 (Reach.exec fresh_state mAsk40 0 addrA 0 Reach.init))

/-- Python `round` of an exact integer is that integer. -/
theorem pyRound_intCast (n : ℤ) : pyRound (n : ℚ) = n := by
  simp [pyRound]

/-- Rounding to four places is exact on any multiple of 1/100. -/
theorem round4_eq_self_of_cents (q : ℚ) (k : ℤ) (h : q = (k : ℚ) / 100) :
    round4 q = q := by
  subst h
  unfold round4
  rw [show ((k : ℚ) / 100 * 10000) = ((100 * k : ℤ) : ℚ) by push_cast; ring,
    pyRound_intCast]
  push_cast
  ring

/-- Evaluation of `record_resolution` on a win. -/
theorem record_resolution_win_eq (t : Trade) (s : BotState) :
    record_resolution t s true =
      ({ t with resolved := true, won := some true,
                pnl := some (round4 ((t.shares : ℚ) * 1 - t.bet_size)),
                bankroll_after :=
                  some (round2 (s.bankroll + (t.shares : ℚ) * 1)) },
       { s with bankroll := s.bankroll + (t.shares : ℚ) * 1,
                wins := s.wins + 1,
                pnl := s.pnl + ((t.shares : ℚ) * 1 - t.bet_size) }) := by
  simp [record_resolution]

/-- Evaluation of `record_resolution` on a loss. -/
theorem record_resolution_loss_eq (t : Trade) (s : BotState) :
    record_resolution t s false =
      ({ t with resolved := true, won := some false,
                pnl := some (round4 (-t.bet_size)),
                bankroll_after := some (round2 s.bankroll) },
       { s with losses := s.losses + 1, pnl := s.pnl + -t.bet_size }) := by
  simp [record_resolution]

/-- The guards of `execute_trade`, as an acceptance characterisation. -/
theorem execute_trade_success_iff (s : BotState) (m : MarketData) (idx : ℕ)
    (la : String) (now : ℕ) :
    (execute_trade s m idx la now).success = true ↔
      idx < m.tokens.length ∧ 0 < m.ask ∧ m.ask < 1 ∧ MIN_ASK ≤ m.ask ∧
      m.ask ≤ MAX_ASK ∧ m.ask - m.bid ≤ MAX_SPREAD ∧
      1 ≤ (Int.floor (BET_SIZE / m.ask)).toNat := by
  constructor
  · intro h
    simp only [execute_trade] at h
    split_ifs at h with h1 h2 h3 h4 h5
    push_neg at h1 h2 h3 h4 h5
    exact ⟨h1, h2.1, h2.2, h3.1, h3.2, h4, h5⟩
  · rintro ⟨c1, c2, c3, c4, c5, c6, c7⟩
    simp only [execute_trade]
    rw [if_neg (by omega), if_neg (by push_neg; exact ⟨c2, c3⟩),
      if_neg (by push_neg; exact ⟨c4, c5⟩), if_neg (by push_neg; exact c6),
      if_neg (by omega)]

/-- A successful `execute_trade` logs (exactly) the trade it appended. -/
theorem execute_trade_logged_of_success (s : BotState) (m : MarketData)
    (idx : ℕ) (la : String) (now : ℕ)
    (h : (execute_trade s m idx la now).success = true) :
    ∃ t : Trade, (execute_trade s m idx la now).logged = some t := by
  simp only [execute_trade] at h ⊢
  split_ifs at h ⊢ with h1 h2 h3 h4 h5
  simp_all

/-- Claim C5: every trade created by `execute_trade` has
`shares = floor(BET_SIZE / ask)` with `shares ≥ 1` and
`bet_size = round(shares * ask, 2)`; on resolution of a trade whose
`bet_size` is a whole number of cents (as all created trades are), a win
records `pnl = shares * 1.0 - bet_size` and credits the bankroll exactly
`shares * 1.0`, and a loss records `pnl = -bet_size` with no credit; and
at ask 0.40 with the $5 notional this gives shares 12, bet 4.80, win pnl
+7.20 and loss pnl -4.80. -/
theorem c5_sizing_and_resolution_arithmetic :
    (∀ (s : BotState) (m : MarketData) (idx : ℕ) (la : String) (now : ℕ)
        (t : Trade),
      (execute_trade s m idx la now).logged = some t →
      t.shares = (Int.floor (BET_SIZE / m.ask)).toNat ∧ 1 ≤ t.shares ∧
      t.bet_size = round2 ((t.shares : ℚ) * m.ask) ∧
      (execute_trade s m idx la now).state.pending = s.pending ++ [t]) ∧
    (∀ (t : Trade) (s : BotState) (k : ℤ), t.bet_size = (k : ℚ) / 100 →
      (record_resolution t s true).1.pnl =
        some ((t.shares : ℚ) * 1 - t.bet_size) ∧
      (record_resolution t s true).2.bankroll =
        s.bankroll + (t.shares : ℚ) * 1 ∧
      (record_resolution t s false).1.pnl = some (-t.bet_size) ∧
      (record_resolution t s false).2.bankroll = s.bankroll) ∧
    (∃ t : Trade,
      (execute_trade fresh_state mAsk40 0 addrA 0).logged = some t ∧
      t.shares = 12 ∧ t.bet_size = 24/5 ∧
      (record_resolution t fresh_state true).1.pnl = some (36/5) ∧
      (record_resolution t fresh_state false).1.pnl = some (-(24/5))) := by
  have hpart1 : ∀ (s : BotState) (m : MarketData) (idx : ℕ) (la : String)
      (now : ℕ) (t : Trade),
      (execute_trade s m idx la now).logged = some t →
      t.shares = (Int.floor (BET_SIZE / m.ask)).toNat ∧ 1 ≤ t.shares ∧
      t.bet_size = round2 ((t.shares : ℚ) * m.ask) ∧
      (execute_trade s m idx la now).state.pending = s.pending ++ [t] := by
    intro s m idx la now t hlog
    simp only [execute_trade] at hlog ⊢
    split_ifs at hlog ⊢ with h1 h2 h3 h4 h5
    simp only [Option.some.injEq] at hlog
    refine ⟨?_, ?_, ?_, ?_⟩
    · rw [← hlog]
    · rw [← hlog]
      show 1 ≤ (Int.floor (BET_SIZE / m.ask)).toNat
      omega
    · rw [← hlog]
    · rw [← hlog]
  have hpart2 : ∀ (t : Trade) (s : BotState) (k : ℤ),
      t.bet_size = (k : ℚ) / 100 →
      (record_resolution t s true).1.pnl =
        some ((t.shares : ℚ) * 1 - t.bet_size) ∧
      (record_resolution t s true).2.bankroll =
        s.bankroll + (t.shares : ℚ) * 1 ∧
      (record_resolution t s false).1.pnl = some (-t.bet_size) ∧
      (record_resolution t s false).2.bankroll = s.bankroll := by
    intro t s k hk
    have hw : round4 ((t.shares : ℚ) - t.bet_size) =
        (t.shares : ℚ) - t.bet_size :=
      round4_eq_self_of_cents _ (100 * t.shares - k)
        (by rw [hk]; push_cast; ring)
    have hl : round4 (-t.bet_size) = -t.bet_size :=
      round4_eq_self_of_cents _ (-k) (by rw [hk]; push_cast; ring)
    refine ⟨?_, ?_, ?_, ?_⟩
    · rw [record_resolution_win_eq]
      simp [hw]
    · rw [record_resolution_win_eq]
    · rw [record_resolution_loss_eq]
      simp [hl]
    · rw [record_resolution_loss_eq]
  refine ⟨hpart1, hpart2, ?_⟩
  have hsucc : (execute_trade fresh_state mAsk40 0 addrA 0).success = true := by
    rw [execute_trade_success_iff]
    refine ⟨by simp [mAsk40], by norm_num [mAsk40], by norm_num [mAsk40],
      by norm_num [mAsk40, MIN_ASK], by norm_num [mAsk40, MAX_ASK],
      by norm_num [mAsk40, MAX_SPREAD], ?_⟩
    norm_num [mAsk40, BET_SIZE, Int.toNat_ofNat]
  obtain ⟨t, hlog⟩ :=
    execute_trade_logged_of_success fresh_state mAsk40 0 addrA 0 hsucc
  obtain ⟨hsh, _, hbet, _⟩ := hpart1 fresh_state mAsk40 0 addrA 0 t hlog
  have hsh12 : t.shares = 12 := by
    rw [hsh]
    norm_num [mAsk40, BET_SIZE]
    decide
  have hbet48 : t.bet_size = 24/5 := by
    rw [hbet, hsh12]
    unfold round2
    rw [show ((12 : ℕ) : ℚ) * mAsk40.ask * 100 = ((480 : ℤ) : ℚ) by
      norm_num [mAsk40], pyRound_intCast]
    norm_num
  obtain ⟨hp1, _, hp3, _⟩ := hpart2 t fresh_state 480 (by rw [hbet48]; norm_num)
  refine ⟨t, hlog, hsh12, hbet48, ?_, ?_⟩
  · rw [hp1, hsh12, hbet48]
    norm_num
  · rw [hp3, hbet48]

/-- Witness for C5: the concrete ask-0.40 scenario (shares 12, bet 4.80,
win pnl +7.20, loss pnl -4.80), extracted from the claim theorem. -/
theorem c5_witness :
    ∃ t : Trade,
      (execute_trade fresh_state mAsk40 0 addrA 0).logged = some t ∧
      t.shares = 12 ∧ t.bet_size = 24/5 ∧
      (record_resolution t fresh_state true).1.pnl = some (36/5) ∧
      (record_resolution t fresh_state false).1.pnl = some (-(24/5)) :=
  c5_sizing_and_resolution_arithmetic.2.2

/-- The test `startsWithB` detects exactly the initial-segment decompositions. -/
theorem startsWithB_iff (n : List Char) :
    ∀ h : List Char, startsWithB n h = true ↔ ∃ r, h = n ++ r := by
  induction n with
  | nil =>
    intro h
    simp [startsWithB]
  | cons a as ih =>
    intro h
    cases h with
    | nil =>
      simp [startsWithB]
    | cons b bs =>
      simp only [startsWithB, Bool.and_eq_true, decide_eq_true_eq, ih,
        List.cons_append, List.cons.injEq]
      constructor
      · rintro ⟨rfl, r, rfl⟩
        exact ⟨r, rfl, rfl⟩
      · rintro ⟨r, rfl, rfl⟩
        exact ⟨rfl, r, rfl⟩

/-- The test `substrB` detects exactly the substring decompositions. -/
theorem substrB_iff (n : List Char) :
    ∀ h : List Char, substrB n h = true ↔ ∃ l r, h = l ++ n ++ r := by
  intro h
  induction h with
  | nil =>
    rw [substrB]
    simp only [Bool.or_eq_true, startsWithB_iff]
    constructor
    · rintro (⟨r, hr⟩ | hf)
      · exact ⟨[], r, by simpa using hr⟩
      · simp at hf
    · rintro ⟨l, r, hlr⟩
      left
      rcases List.append_eq_nil.mp hlr.symm with ⟨h1, rfl⟩
      rcases List.append_eq_nil.mp h1 with ⟨rfl, rfl⟩
      exact ⟨[], rfl⟩
  | cons x t ih =>
    rw [substrB]
    simp only [Bool.or_eq_true, startsWithB_iff, ih]
    constructor
    · rintro (⟨r, hr⟩ | ⟨l, r, hr⟩)
      · exact ⟨[], r, by simpa using hr⟩
      · exact ⟨x :: l, r, by simp [hr]⟩
    · rintro ⟨l, r, hr⟩
      cases l with
      | nil =>
        left
        exact ⟨r, by simpa using hr⟩
      | cons y l' =>
        right
        simp only [List.cons_append, List.cons.injEq] at hr
        exact ⟨l', r, hr.2⟩

/-- Counterexample to claim C9 as stated: with question "heat" and
description "wave" the classifier reports true (the keyword "heat wave"
spans the single space the code inserts between the fields), yet no
keyword is a substring of the plain concatenation of the lower-cased
question and description texts. -/
theorem c9_counterexample :
    is_weather_market mHeatWave = true ∧
    (WEATHER_KEYWORDS.any (fun kw =>
      substrB kw.data
        (lowerChars (getStr mHeatWave.question).data ++
          lowerChars (getStr mHeatWave.description).data))) = false := by
  constructor
  · decide
  · decide

/-- Claim C9 (amended): `is_weather_market` is pure and total (a total
function over market records with possibly missing or null question and
description fields), and returns true iff some entry of the fixed
weather-keyword list is a substring of the lower-cased question text
joined to the lower-cased description text by a single space.  The spec's
examples: "Blizzard" in the question and "record high" in the description
(even with the question field missing) classify true; an unrelated market
classifies false. -/
theorem c9_weather_classifier :
    (∀ m : MarketRec, is_weather_market m = true ↔
      ∃ kw ∈ WEATHER_KEYWORDS, ∃ l r, marketText m = l ++ kw.data ++ r) ∧
    is_weather_market mBlizzard = true ∧
    is_weather_market mRecordHigh = true ∧
    is_weather_market mUnrelated = false := by
  refine ⟨?_, by decide, by decide, by decide⟩
  intro m
  simp [is_weather_market, List.any_eq_true, substrB_iff]

/-- Witness for C9 (amended): the "heat"/"wave" market classifies true,
via the keyword "heat wave" spanning the inserted space. -/
theorem c9_witness : is_weather_market mHeatWave = true := by
  rw [(c9_weather_classifier.1 mHeatWave)]
  refine ⟨heatWaveKw, by decide, [], [], by decide⟩

/-- Looking up a key after inserting one position: the position's own
outcome aggregate absorbs it, all other keys are untouched. -/
theorem lookupV_addPosition (votes : List (String × Vote)) (p : Position)
    (k : String) :
    lookupV (addPosition votes p) k =
      if p.outcome = k then addOne (lookupV votes k) p
      else lookupV votes k := by
  induction votes with
  | nil =>
    by_cases hk : p.outcome = k <;>
      simp [addPosition, lookupV, addOne, hk]
  | cons ov rest ih =>
    rcases ov with ⟨o, v⟩
    by_cases ho : o = p.outcome
    · subst ho
      by_cases hk : p.outcome = k
      · simp [addPosition, lookupV, addOne, hk]
      · simp [addPosition, lookupV, addOne, hk]
    · by_cases hk : o = k
      · subst hk
        have hpo : ¬ p.outcome = o := fun hcon => ho hcon.symm
        simp [addPosition, lookupV, ho, hpo]
      · simp [addPosition, lookupV, ho, hk, ih]

/-- The aggregate of outcome `k` after folding a positions list depends
only on the positions with that outcome. -/
theorem lookupV_foldl (k : String) :
    ∀ (ps : List Position) (acc : List (String × Vote)),
      lookupV (ps.foldl addPosition acc) k =
        (ps.filter (fun p => p.outcome = k)).foldl addOne (lookupV acc k) := by
  intro ps
  induction ps with
  | nil =>
    intro acc
    simp
  | cons p rest ih =>
    intro acc
    simp only [List.foldl_cons, List.filter_cons]
    by_cases hp : p.outcome = k
    · rw [if_pos (by simpa using hp), List.foldl_cons, ih,
        lookupV_addPosition, if_pos hp]
    · rw [if_neg (by simpa using hp), ih, lookupV_addPosition, if_neg hp]

/-- Folding a group of positions into an existing aggregate: counts add,
sizes add, and the best leader is the running strict-max. -/
theorem addOne_fold_some :
    ∀ (g : List Position) (v0 : Vote) (b0 : Position),
      v0.best_leader = some b0 →
      ∃ v b, g.foldl addOne (some v0) = some v ∧
        v.count = v0.count + g.length ∧
        v.total_size = v0.total_size + (g.map Position.size).sum ∧
        v.best_leader = some b ∧ (b = b0 ∨ b ∈ g) ∧ b0.size ≤ b.size ∧
        ∀ q ∈ g, q.size ≤ b.size := by
  intro g
  induction g with
  | nil =>
    intro v0 b0 h0
    exact ⟨v0, b0, rfl, by simp, by simp, h0, Or.inl rfl, le_refl _, by simp⟩
  | cons p g ih =>
    intro v0 b0 h0
    by_cases hcmp : b0.size < p.size
    · have hv1 : addOne (some v0) p =
          some ⟨v0.count + 1, v0.total_size + p.size, some p⟩ := by
        simp [addOne, updBest, h0, hcmp]
      obtain ⟨v, b, hfold, hcount, htotal, hbest, hmem, hsize, hall⟩ :=
        ih ⟨v0.count + 1, v0.total_size + p.size, some p⟩ p rfl
      refine ⟨v, b, ?_, ?_, ?_, hbest, ?_, ?_, ?_⟩
      · rw [List.foldl_cons, hv1]
        exact hfold
      · rw [hcount]
        simp only [List.length_cons]
        omega
      · rw [htotal]
        simp only [List.map_cons, List.sum_cons]
        ring
      · rcases hmem with rfl | hb
        · exact Or.inr (List.mem_cons_self _ _)
        · exact Or.inr (List.mem_cons_of_mem _ hb)
      · exact le_trans (le_of_lt hcmp) hsize
      · intro q hq
        rcases List.mem_cons.mp hq with rfl | hq
        · exact hsize
        · exact hall q hq
    · have hv1 : addOne (some v0) p =
          some ⟨v0.count + 1, v0.total_size + p.size, some b0⟩ := by
        simp [addOne, updBest, h0, hcmp]
      obtain ⟨v, b, hfold, hcount, htotal, hbest, hmem, hsize, hall⟩ :=
        ih ⟨v0.count + 1, v0.total_size + p.size, some b0⟩ b0 rfl
      refine ⟨v, b, ?_, ?_, ?_, hbest, ?_, hsize, ?_⟩
      · rw [List.foldl_cons, hv1]
        exact hfold
      · rw [hcount]
        simp only [List.length_cons]
        omega
      · rw [htotal]
        simp only [List.map_cons, List.sum_cons]
        ring
      · rcases hmem with rfl | hb
        · exact Or.inl rfl
        · exact Or.inr (List.mem_cons_of_mem _ hb)
      · intro q hq
        rcases List.mem_cons.mp hq with rfl | hq
        · exact le_trans (not_lt.mp hcmp) hsize
        · exact hall q hq

/-- Folding a nonempty group from the empty aggregate: count is the group
size, total_size its size sum, and the best leader is a member of the
group of maximal size (first maximum kept on ties). -/
theorem addOne_fold_none (g : List Position) (p : Position) :
    ∃ v b, (p :: g).foldl addOne none = some v ∧
      v.count = (p :: g).length ∧
      v.total_size = ((p :: g).map Position.size).sum ∧
      v.best_leader = some b ∧ b ∈ p :: g ∧ ∀ q ∈ p :: g, q.size ≤ b.size := by
  obtain ⟨v, b, hfold, hcount, htotal, hbest, hmem, hsize, hall⟩ :=
    addOne_fold_some g ⟨1, p.size, some p⟩ p rfl
  refine ⟨v, b, ?_, ?_, ?_, hbest, ?_, ?_⟩
  · rw [List.foldl_cons]
    exact hfold
  · rw [hcount]
    simp only [List.length_cons]
    omega
  · rw [htotal]
    simp only [List.map_cons, List.sum_cons]
  · rcases hmem with rfl | hb
    · exact List.mem_cons_self _ _
    · exact List.mem_cons_of_mem _ hb
  · intro q hq
    rcases List.mem_cons.mp hq with rfl | hq
    · exact hsize
    · exact hall q hq

theorem addPosition_ne_nil (votes : List (String × Vote)) (p : Position) :
    addPosition votes p ≠ [] := by
  cases votes with
  | nil => simp [addPosition]
  | cons ov rest =>
    rcases ov with ⟨o, v⟩
    simp only [addPosition]
    split_ifs <;> simp

theorem foldl_addPosition_ne_nil :
    ∀ (ps : List Position) (acc : List (String × Vote)), acc ≠ [] →
      ps.foldl addPosition acc ≠ [] := by
  intro ps
  induction ps with
  | nil =>
    intro acc h
    simpa using h
  | cons p rest ih =>
    intro acc _
    exact ih (addPosition acc p) (addPosition_ne_nil acc p)

theorem buildVotes_ne_nil (ps : List Position) (h : ps ≠ []) :
    buildVotes ps ≠ [] := by
  cases ps with
  | nil => exact absurd rfl h
  | cons p rest =>
    show rest.foldl addPosition (addPosition [] p) ≠ []
    exact foldl_addPosition_ne_nil rest _ (addPosition_ne_nil [] p)

/-- Inserting a position either leaves the key list unchanged (outcome
already present) or appends the new outcome at the end. -/
theorem keys_addPosition (votes : List (String × Vote)) (p : Position) :
    (addPosition votes p).map Prod.fst =
      if p.outcome ∈ votes.map Prod.fst then votes.map Prod.fst
      else votes.map Prod.fst ++ [p.outcome] := by
  induction votes with
  | nil => simp [addPosition]
  | cons ov rest ih =>
    rcases ov with ⟨o, v⟩
    by_cases ho : o = p.outcome
    · subst ho
      simp [addPosition]
    · have hne : ¬ p.outcome = o := fun hcon => ho hcon.symm
      by_cases hmem : p.outcome ∈ rest.map Prod.fst
      · simp [addPosition, ho, ih, hmem, hne]
      · simp [addPosition, ho, ih, hmem, hne]

theorem keys_nodup_addPosition (votes : List (String × Vote)) (p : Position)
    (h : (votes.map Prod.fst).Nodup) :
    ((addPosition votes p).map Prod.fst).Nodup := by
  rw [keys_addPosition]
  split_ifs with hmem
  · exact h
  · simp [List.nodup_append, h, hmem]

theorem buildVotes_keys_nodup_aux :
    ∀ (ps : List Position) (acc : List (String × Vote)),
      (acc.map Prod.fst).Nodup →
      ((ps.foldl addPosition acc).map Prod.fst).Nodup := by
  intro ps
  induction ps with
  | nil =>
    intro acc h
    simpa using h
  | cons p rest ih =>
    intro acc h
    exact ih (addPosition acc p) (keys_nodup_addPosition acc p h)

theorem buildVotes_keys_nodup (ps : List Position) :
    ((buildVotes ps).map Prod.fst).Nodup :=
  buildVotes_keys_nodup_aux ps [] (by simp)

/-- With distinct keys, association-list membership determines lookup. -/
theorem lookupV_eq_of_mem :
    ∀ (votes : List (String × Vote)) (k : String) (v : Vote),
      (votes.map Prod.fst).Nodup → (k, v) ∈ votes →
      lookupV votes k = some v := by
  intro votes
  induction votes with
  | nil =>
    intro k v _ hmem
    simp at hmem
  | cons ov rest ih =>
    rcases ov with ⟨o, w⟩
    intro k v hnd hmem
    simp only [List.map_cons, List.nodup_cons] at hnd
    rcases List.mem_cons.mp hmem with heq | hmem'
    · rcases Prod.mk.injEq .. ▸ heq with ⟨rfl, rfl⟩
      simp [lookupV]
    · by_cases hok : o = k
      · subst hok
        exact absurd (List.mem_map_of_mem Prod.fst hmem') hnd.1
      · simp only [lookupV, if_neg hok]
        exact ih k v hnd.2 hmem'

/-- Python `max` returns a member of the list it maximises over. -/
theorem voteStep_foldl_mem :
    ∀ (l : List (String × Vote)) (x : String × Vote),
      l.foldl voteStep x = x ∨ l.foldl voteStep x ∈ l := by
  intro l
  induction l with
  | nil =>
    intro x
    exact Or.inl rfl
  | cons y l ih =>
    intro x
    rw [List.foldl_cons]
    rcases ih (voteStep x y) with h | h
    · rw [h]
      unfold voteStep
      split_ifs
      · exact Or.inr (List.mem_cons_self _ _)
      · exact Or.inl rfl
    · exact Or.inr (List.mem_cons_of_mem _ h)

/-- Python `max` dominates its start value and every list element. -/
theorem voteStep_foldl_ge :
    ∀ (l : List (String × Vote)) (x : String × Vote),
      x.2.total_size ≤ (l.foldl voteStep x).2.total_size ∧
      ∀ y ∈ l, y.2.total_size ≤ (l.foldl voteStep x).2.total_size := by
  intro l
  induction l with
  | nil =>
    intro x
    exact ⟨le_refl _, by simp⟩
  | cons y l ih =>
    intro x
    rw [List.foldl_cons]
    rcases ih (voteStep x y) with ⟨h1, h2⟩
    have hx : x.2.total_size ≤ (voteStep x y).2.total_size := by
      unfold voteStep
      split_ifs with hlt
      · exact le_of_lt hlt
      · exact le_refl _
    have hy : y.2.total_size ≤ (voteStep x y).2.total_size := by
      unfold voteStep
      split_ifs with hlt
      · exact le_refl _
      · exact not_lt.mp hlt
    refine ⟨le_trans hx h1, ?_⟩
    intro z hz
    rcases List.mem_cons.mp hz with rfl | hz
    · exact le_trans hy h1
    · exact h2 z hz

/-- Claim C6: the consensus step groups leader positions by outcome
label; the winning outcome's aggregate records the group's trader count
and `total_size` (the sum of its position sizes); the winner has the
greatest `total_size` among all groups (size-weighted, not
count-weighted); and the attached representative leader is a position of
the winning group of maximal size.  The spec scenario — "Yes" totalling
800 over three traders versus "No" totalling 950 over two — selects
"No". -/
theorem c6_consensus_size_weighted :
    (∀ ps : List Position, ps ≠ [] →
      ∃ k v, consensus ps = some (k, v) ∧
        v.count = (ps.filter (fun p => p.outcome = k)).length ∧
        v.total_size =
          ((ps.filter (fun p => p.outcome = k)).map Position.size).sum ∧
        (∀ kv ∈ buildVotes ps, kv.2.total_size ≤ v.total_size) ∧
        (∃ b, v.best_leader = some b ∧ b ∈ ps ∧ b.outcome = k ∧
          ∀ q ∈ ps, q.outcome = k → q.size ≤ b.size)) ∧
    (∃ v, consensus exC6 = some (noStr, v) ∧ v.count = 2 ∧
      v.total_size = 950) := by
  constructor
  · intro ps hps
    rcases hx : buildVotes ps with _ | ⟨x, rest⟩
    · exact absurd hx (buildVotes_ne_nil ps hps)
    · have hres : consensus ps = some (rest.foldl voteStep x) := by
        rw [consensus, hx]
        rfl
      refine ⟨(rest.foldl voteStep x).1, (rest.foldl voteStep x).2,
        by rw [hres], ?_⟩
      have hmem : (rest.foldl voteStep x) ∈ buildVotes ps := by
        rw [hx]
        rcases voteStep_foldl_mem rest x with h | h
        · rw [h]
          exact List.mem_cons_self _ _
        · exact List.mem_cons_of_mem _ h
      have hfold : (ps.filter
            (fun p => p.outcome = (rest.foldl voteStep x).1)).foldl addOne none
          = some (rest.foldl voteStep x).2 := by
        have hlf := lookupV_foldl (rest.foldl voteStep x).1 ps []
        rw [show lookupV ([] : List (String × Vote))
            (rest.foldl voteStep x).1 = none from rfl] at hlf
        rw [← hlf]
        exact lookupV_eq_of_mem (buildVotes ps) (rest.foldl voteStep x).1
          (rest.foldl voteStep x).2 (buildVotes_keys_nodup ps) hmem
      rcases hg : ps.filter (fun p => p.outcome = (rest.foldl voteStep x).1)
        with _ | ⟨p, g⟩
      · rw [hg] at hfold
        simp at hfold
      · rw [hg] at hfold
        obtain ⟨v', b, hfold', hcount, htotal, hbest, hbmem, hall⟩ :=
          addOne_fold_none g p
        have hv : v' = (rest.foldl voteStep x).2 := by
          rw [hfold'] at hfold
          exact Option.some.inj hfold
        subst hv
        refine ⟨by rw [hg]; exact hcount, by rw [hg]; exact htotal, ?_, ?_⟩
        · intro kv hkv
          rcases List.mem_cons.mp hkv with rfl | hkv
          · exact (voteStep_foldl_ge rest kv).1
          · exact (voteStep_foldl_ge rest x).2 kv hkv
        · refine ⟨b, hbest, ?_, ?_, ?_⟩
          · have : b ∈ ps.filter
                (fun p => p.outcome = (rest.foldl voteStep x).1) := by
              rw [hg]
              exact hbmem
            exact (List.mem_filter.mp this).1
          · have : b ∈ ps.filter
                (fun p => p.outcome = (rest.foldl voteStep x).1) := by
              rw [hg]
              exact hbmem
            simpa using (List.mem_filter.mp this).2
          · intro q hq hqo
            have hqf : q ∈ ps.filter
                (fun p => p.outcome = (rest.foldl voteStep x).1) :=
              List.mem_filter.mpr ⟨hq, by simpa using hqo⟩
            rw [hg] at hqf
            exact hall q hqf
  · have hyn : ¬ (yesStr = noStr) := by decide
    have hny : ¬ (noStr = yesStr) := by decide
    have hc : consensus exC6 =
        some (noStr, ⟨2, 950,
          some { address := addrB, outcome := noStr, size := 500, pnl := 0 }⟩) := by
      norm_num [consensus, buildVotes, addPosition, pickBest, voteStep,
        updBest, exC6, hyn, hny]
    exact ⟨_, hc, rfl, rfl⟩

/-- Witness for C6: the spec's 800-versus-950 scenario, extracted from
the claim theorem. -/
theorem c6_witness :
    ∃ v, consensus exC6 = some (noStr, v) ∧ v.count = 2 ∧
      v.total_size = 950 :=
  c6_consensus_size_weighted.2

/-- The market loop never hands `execute_trade` a token that was in the
`traded_set` snapshot taken when the scan iteration began. -/
theorem marketLoop_no_snapshot_reentry (traded_set : List String) (now : ℕ) :
    ∀ (ms : List MarketData) (s : BotState) (tok : String) (b : Bool),
      (tok, b) ∈ (marketLoop traded_set now ms s).2 → tok ∉ traded_set := by
  intro ms
  induction ms with
  | nil =>
    intro s tok b hmem
    simp [marketLoop] at hmem
  | cons m rest ih =>
    intro s tok b hmem
    simp only [marketLoop] at hmem
    split at hmem
    · simp at hmem
    · split at hmem
      · simp at hmem
      · split at hmem
        · exact ih s tok b hmem
        · split at hmem
          · exact ih s tok b hmem
          · split at hmem
            · exact ih s tok b hmem
            · split at hmem
              · exact ih s tok b hmem
              · split at hmem
                · simp at hmem
                · split at hmem
                  · exact ih s tok b hmem
                  · rename_i hnotin
                    simp only [List.mem_cons] at hmem
                    rcases hmem with heq | hmem'
                    · rcases Prod.mk.injEq .. ▸ heq with ⟨rfl, rfl⟩
                      exact hnotin
                    · exact ih _ tok b hmem'

/-- Claim C8 (amended): every successful `execute_trade` records its
token in `traded_tokens`, and within a scan iteration the loop skips
every outcome whose token was in `traded_tokens` when the iteration began
(the `traded_set` snapshot); hence a token present in `traded_tokens` at
the start of an iteration is never the target of an `execute_trade` call.
The snapshot is not refreshed inside the iteration, so a token first
traded during the iteration can be re-targeted (see the
counterexample). -/
theorem c8_no_reentry_within_snapshot :
    (∀ (s : BotState) (m : MarketData) (idx : ℕ) (la : String) (now : ℕ),
      (execute_trade s m idx la now).success = true →
      (execute_trade s m idx la now).state.traded_tokens
        = s.traded_tokens ++ [m.tokens.getD idx emptyStr]) ∧
    (∀ (traded_set : List String) (now : ℕ) (ms : List MarketData)
        (s : BotState) (tok : String) (b : Bool),
      (tok, b) ∈ (marketLoop traded_set now ms s).2 → tok ∉ traded_set) := by
  constructor
  · intro s m idx la now h
    simp only [execute_trade] at h ⊢
    split_ifs at h ⊢
    rfl
  · intro traded_set now ms s tok b hmem
    exact marketLoop_no_snapshot_reentry traded_set now ms s tok b hmem

/-- Witness for C8 (amended): the successful ask-0.40 trade appends its
token to `traded_tokens`. -/
theorem c8_witness :
    (execute_trade fresh_state mAsk40 0 addrA 0).state.traded_tokens
      = fresh_state.traded_tokens ++ [mAsk40.tokens.getD 0 emptyStr] :=
  c8_no_reentry_within_snapshot.1 fresh_state mAsk40 0 addrA 0
    (by
      rw [execute_trade_success_iff]
      refine ⟨by simp [mAsk40], by norm_num [mAsk40], by norm_num [mAsk40],
        by norm_num [mAsk40, MIN_ASK], by norm_num [mAsk40, MAX_ASK],
        by norm_num [mAsk40, MAX_SPREAD], ?_⟩
      norm_num [mAsk40, BET_SIZE, Int.toNat_ofNat])

/-- Evaluation of `execute_trade` on `mAsk40` with leader `addrA`
(the appended trade record is `tEx`). -/
theorem execute_trade_mAsk40 (s : BotState) :
    execute_trade s mAsk40 0 addrA 0 =
      ⟨true,
        { s with pending := s.pending ++ [tEx], trades := s.trades + 1,
                 bankroll := s.bankroll - tEx.bet_size,
                 traded_tokens := s.traded_tokens ++ [tokA] },
        some tEx, true⟩ := by
  simp only [execute_trade]
  rw [if_neg (by norm_num [mAsk40]),
    if_neg (by push_neg; constructor <;> norm_num [mAsk40]),
    if_neg (by push_neg; constructor <;> norm_num [mAsk40, MIN_ASK, MAX_ASK]),
    if_neg (by norm_num [mAsk40, MAX_SPREAD]),
    if_neg (by norm_num [mAsk40, BET_SIZE, Int.toNat_ofNat])]
  rfl

/-- The trade `tEx` costs $4.80. -/
theorem tEx_bet_size : tEx.bet_size = 24/5 := by
  show round2 (((Int.floor (BET_SIZE / (2/5 : ℚ))).toNat : ℚ) * (2/5)) = 24/5
  rw [show (Int.floor (BET_SIZE / (2/5 : ℚ))).toNat = 12 by
    norm_num [BET_SIZE]
    decide]
  unfold round2
  rw [show ((12 : ℕ) : ℚ) * (2/5) * 100 = ((480 : ℤ) : ℚ) by norm_num,
    pyRound_intCast]
  norm_num

/-- One step of the market loop on `mAsk40` when the guards pass: the
trade fires and the loop records the invocation together with whether the
token was already in `traded_tokens`. -/
theorem marketLoop_mAsk40_step (s : BotState) (rest : List MarketData)
    (hb : ¬ s.bankroll < BET_SIZE) (hp : ¬ MAX_PENDING ≤ s.pending.length) :
    marketLoop [] 0 (mAsk40 :: rest) s =
      ((marketLoop [] 0 rest (execute_trade s mAsk40 0 addrA 0).state).1,
        (tokA, decide (tokA ∈ s.traded_tokens)) ::
          (marketLoop [] 0 rest (execute_trade s mAsk40 0 addrA 0).state).2) := by
  have hcons : consensus mAsk40.positions =
      some (yesStr, ⟨1, 100,
        some { address := addrA, outcome := yesStr, size := 100, pnl := 0 }⟩) := by
    norm_num [consensus, mAsk40, buildVotes, addPosition, pickBest, voteStep]
  have hidx : findIdxS yesStr mAsk40.outcomes 0 = some 0 := by
    simp [findIdxS, mAsk40]
  simp only [marketLoop]
  rw [if_neg hb, if_neg hp, if_neg (by simp [mAsk40]),
    if_neg (by simp [mAsk40])]
  simp only [hcons, hidx]
  rw [if_neg (by simp [mAsk40]), if_neg (by simp [mAsk40])]
  simp [mAsk40]

/-- Counterexample to claim C8 as stated: scanning the same market twice
in one iteration (duplicate listings are not filtered) trades the same
token twice.  The recorded invocations show the second `execute_trade`
call targeting `tokA` although `tokA` was already in `traded_tokens`
(flag `true`), while the first position is still pending: the final state
holds two pending trades on the same token. -/
theorem c8_counterexample :
    (scanIteration fresh_state [mAsk40, mAsk40] 0).2
        = [(tokA, false), (tokA, true)] ∧
    ((scanIteration fresh_state [mAsk40, mAsk40] 0).1.pending.map
        Trade.token_id) = [tokA, tokA] := by
  have hs1 : ¬ fresh_state.bankroll < BET_SIZE := by
    norm_num [fresh_state, STARTING_BANKROLL, BET_SIZE]
  have hp1 : ¬ MAX_PENDING ≤ fresh_state.pending.length := by
    norm_num [fresh_state, MAX_PENDING]
  have hstep1 := marketLoop_mAsk40_step fresh_state [mAsk40] hs1 hp1
  rw [execute_trade_mAsk40 fresh_state] at hstep1
  have hs2 : ¬ ({ fresh_state with
      pending := fresh_state.pending ++ [tEx],
      trades := fresh_state.trades + 1,
      bankroll := fresh_state.bankroll - tEx.bet_size,
      traded_tokens := fresh_state.traded_tokens ++ [tokA] } : BotState).bankroll
        < BET_SIZE := by
    show ¬ fresh_state.bankroll - tEx.bet_size < BET_SIZE
    rw [tEx_bet_size]
    norm_num [fresh_state, STARTING_BANKROLL, BET_SIZE]
  have hp2 : ¬ MAX_PENDING ≤ ({ fresh_state with
      pending := fresh_state.pending ++ [tEx],
      trades := fresh_state.trades + 1,
      bankroll := fresh_state.bankroll - tEx.bet_size,
      traded_tokens := fresh_state.traded_tokens ++ [tokA] } : BotState).pending.length := by
    show ¬ MAX_PENDING ≤ (fresh_state.pending ++ [tEx]).length
    norm_num [fresh_state, MAX_PENDING]
  have hstep2 := marketLoop_mAsk40_step
    { fresh_state with
      pending := fresh_state.pending ++ [tEx],
      trades := fresh_state.trades + 1,
      bankroll := fresh_state.bankroll - tEx.bet_size,
      traded_tokens := fresh_state.traded_tokens ++ [tokA] } [] hs2 hp2
  rw [execute_trade_mAsk40] at hstep2
  show (marketLoop fresh_state.traded_tokens 0 [mAsk40, mAsk40] fresh_state).2
      = [(tokA, false), (tokA, true)] ∧
    ((marketLoop fresh_state.traded_tokens 0 [mAsk40, mAsk40]
        fresh_state).1.pending.map Trade.token_id) = [tokA, tokA]
  rw [show fresh_state.traded_tokens = ([] : List String) from rfl]
  rw [hstep1, hstep2]
  simp [marketLoop, fresh_state, tEx]

end WeatherBot
